import Mathlib

/-!
Verification development for the roxdb embedded hybrid vector/scalar
database.  The definitions below are a shallow embedding of the C++
sources (src/vector.h, src/vector.cc, src/ha_query.cc, src/impl.cc,
src/storage.cc, src/db.cc and the public header roxdb/db.h).

Modelling conventions:
* `float`/`Float` (f32 in the source) is modelled by `ℚ` (exact reals);
  none of the verified properties depends on rounding, only on the order
  structure of the computed distances.
* `size_t`/`uint64_t` are modelled by `ℕ`.
* Fallible operations return `Except MErr`:
  - `MErr.ub` marks genuine C++ undefined behaviour (out-of-bounds
    `operator[]`, `top()` of an empty `std::priority_queue`, integer
    division by zero);
  - `MErr.assertFail` marks a failing `assert(...)` (active in the
    default build, which defines no `NDEBUG`);
  - `MErr.thrown` marks a thrown C++ exception (`std::invalid_argument`,
    `std::runtime_error`, `unordered_map::at` misses);
  - `MErr.fuelOut` is an artefact of modelling `while` loops with fuel;
    every theorem below either supplies enough fuel or proves the exact
    result.
* `std::priority_queue<QueryResult>` (a max-heap ordered by distance) is
  modelled by a list kept sorted in descending distance order; `top` is
  the head, `pop` the tail, so draining the heap yields the list itself.
* Parallel `std::for_each(std::execution::par, ...)` loops are
  sequentialised in container order (a deterministic schedule).
-/

namespace RoxDb

/-- Record keys (`using Key = uint64_t`). -/
abbrev Key := ℕ

/-- Dense vectors (`using Vector = std::vector<Float>`), over exact `ℚ`. -/
abbrev Vec := List ℚ

/-- `using Scalar = std::variant<double, int, std::string>`; the
constructor order matches the variant alternative order, which matters
for `std::variant` relational comparison. -/
inductive Scalar where
  | d : ℚ → Scalar
  | i : ℤ → Scalar
  | s : String → Scalar
deriving DecidableEq

/-- `ScalarFilter::Op`. -/
inductive FilterOp where
  | eq | ne | gt | ge | lt | le
deriving DecidableEq

/-- `struct ScalarFilter`. -/
structure ScalarFilter where
  field : String
  op : FilterOp
  value : Scalar
deriving DecidableEq

/-- `struct Record`. -/
structure Record where
  id : Key
  scalars : List Scalar
  vectors : List Vec
deriving DecidableEq

/-- `ScalarField::Type`. -/
inductive ScalarTy where
  | double | int | string
deriving DecidableEq

/-- `struct ScalarField`. -/
structure ScalarField where
  name : String
  ty : ScalarTy
deriving DecidableEq

/-- `struct VectorField`. -/
structure VectorField where
  name : String
  dim : ℕ
  numCentroids : ℕ
deriving DecidableEq

/-- `struct Schema`; the `name → index` maps are realised as lookups
over the field lists (they are populated from exactly these lists). -/
structure Schema where
  vectorFields : List VectorField
  scalarFields : List ScalarField
deriving DecidableEq

/-- `schema.vector_field_idx.at(name)` (built as position in
`vector_fields`). -/
def Schema.vectorFieldIdx (sc : Schema) (n : String) : Option ℕ :=
  sc.vectorFields.findIdx? (fun f => f.name = n)

/-- `schema.scalar_field_idx.at(name)`. -/
def Schema.scalarFieldIdx (sc : Schema) (n : String) : Option ℕ :=
  sc.scalarFields.findIdx? (fun f => f.name = n)

/-- One `(field_name, query_vector, weight)` triple of `Query::vectors`. -/
structure QueryVec where
  field : String
  vec : Vec
  weight : ℚ
deriving DecidableEq

/-- `struct Query`. -/
structure Query where
  limit : ℕ
  vectors : List QueryVec
  filters : List ScalarFilter
deriving DecidableEq

/-- `struct QueryResult`; ordered by `distance` only. -/
structure QueryResult where
  id : Key
  distance : ℚ
deriving DecidableEq

/-- Error kinds of the model (see the module comment). -/
inductive MErr where
  | ub | assertFail | thrown | fuelOut
deriving DecidableEq

/-- Result monad of the model. -/
abbrev M (α : Type) := Except MErr α

/-- `GetDistanceL2Sq(a, b)`: sum of squared coordinate differences
(src/vector_distance.h; the scalar reference implementation). The
source asserts `a.size() == b.size()`; all call sites below satisfy it
and the truncating `zip` agrees with the source on that domain. -/
def GetDistanceL2Sq (a b : Vec) : ℚ :=
  (a.zip b).foldl (fun acc p => acc + (p.1 - p.2) * (p.1 - p.2)) 0

/-- `std::numeric_limits<float>::max()`, the initial
`last_seen_distance` / threshold value: `(2^24 - 1) · 2^104`, written
as an explicit numeral. -/
def floatMax : ℚ := 340282346638528859811704183484516925440

/-- `std::min(a, b)` on distances (returns `b` when `b < a`). -/
def minQ (a b : ℚ) : ℚ := if b < a then b else a

/- ### Generic association-list and list helpers
(model `std::unordered_map` and in-place element updates). -/

/-- Lookup in an association list (`unordered_map::find` /
`::at` / `::contains`). -/
def alookup {κ α : Type} [DecidableEq κ] : List (κ × α) → κ → Option α
  | [], _ => none
  | (k', v) :: t, k => if k' = k then some v else alookup t k

/-- `map[key] = value`: replace the binding or append a new one. -/
def aset {κ α : Type} [DecidableEq κ] : List (κ × α) → κ → α → List (κ × α)
  | [], k, v => [(k, v)]
  | (k', v') :: t, k, v =>
      if k' = k then (k, v) :: t else (k', v') :: aset t k v

/-- Lookup with a default (models `unordered_map::operator[]` reads on
keys known to be present). -/
def alookupD {κ α : Type} [DecidableEq κ] (l : List (κ × α)) (k : κ) (dflt : α) : α :=
  (alookup l k).getD dflt

/-- In-place update of list element `i` (models mutation of one element
of a `std::vector`). -/
def listUpd {α : Type} : List α → ℕ → (α → α) → List α
  | [], _, _ => []
  | x :: xs, 0, f => f x :: xs
  | x :: xs, n + 1, f => x :: listUpd xs n f

/-- Lexicographic `<` on character lists (the `std::string` ordering
used for RocksDB byte keys). -/
def charsLt : List Char → List Char → Bool
  | [], [] => false
  | [], _ :: _ => true
  | _ :: _, [] => false
  | c :: cs, d :: ds =>
      if c.val < d.val then true
      else if d.val < c.val then false
      else charsLt cs ds

/-- The RocksDB key of a record: `"r:" + std::to_string(key)`
(`RdbStorage::MakeRecordKey`). -/
def recordKeyChars (k : Key) : List Char :=
  'r' :: ':' :: (Nat.repr k).data

/-- Stable insertion into a list sorted ascending by a measure. -/
def insertAscBy {α : Type} (f : α → ℚ) (x : α) : List α → List α
  | [] => [x]
  | y :: ys => if f x < f y then x :: y :: ys else y :: insertAscBy f x ys

/-- Stable sort ascending by a measure (models draining a min-heap of
candidates: ascending distance, ties in an unspecified but fixed
order). -/
def sortAscBy {α : Type} (f : α → ℚ) : List α → List α
  | [] => []
  | x :: xs => insertAscBy f x (sortAscBy f xs)

/-- Stable insertion sorted ascending by a Bool order (for byte keys). -/
def insertAscB {α : Type} (lt : α → α → Bool) (x : α) : List α → List α
  | [] => [x]
  | y :: ys => if lt x y then x :: y :: ys else y :: insertAscB lt x ys

/-- Stable sort by a Bool order. -/
def sortAscB {α : Type} (lt : α → α → Bool) : List α → List α
  | [] => []
  | x :: xs => insertAscB lt x (sortAscB lt xs)

/-- Index of the first minimum of a list of distances; models
`std::distance(begin, std::ranges::min_element(distances))` —
`min_element` returns the first smallest element, so ties resolve to
the lowest index. -/
def argminIdx : List ℚ → ℕ
  | [] => 0
  | [_] => 0
  | x :: y :: t =>
      let j := argminIdx (y :: t)
      if (y :: t).getD j 0 < x then j + 1 else 0

/- ### IVF-Flat index (src/vector.h) -/

/-- One inverted (posting) list: `using IvfList = std::vector<std::pair<Key, Vector>>`. -/
abbrev IvfList := List (Key × Vec)

/-- `class IvfFlatIndex`. -/
structure IvfFlatIndex where
  fieldName : String
  dim : ℕ
  nlist : ℕ
  centroids : List Vec
  invertedLists : List IvfList
deriving DecidableEq

/-- `AssignCentroid(v, centroids, dim)`: the index of the nearest
centroid, first (lowest) index on ties.  The two `assert`s of the
source become `assertFail`. -/
def AssignCentroid (v : Vec) (centroids : List Vec) (dim : ℕ) : M ℕ :=
  if centroids = [] then .error .assertFail
  else if v.length ≠ dim then .error .assertFail
  else .ok (argminIdx (centroids.map (fun c => GetDistanceL2Sq c v)))

/-- `IvfFlatIndex::Put(key, v)`: append `(key, v)` to the inverted list
of the assigned centroid. -/
def IvfFlatIndex.put (idx : IvfFlatIndex) (key : Key) (v : Vec) : M IvfFlatIndex := do
  let cluster ← AssignCentroid v idx.centroids idx.dim
  match idx.invertedLists.get? cluster with
  | none => .error .ub
  | some l =>
      .ok { idx with invertedLists := idx.invertedLists.set cluster (l ++ [(key, v)]) }

/-- `IvfFlatIndex::SetCentroids(centroids)`: `assert(size == nlist_)`
then replace. -/
def IvfFlatIndex.setCentroids (idx : IvfFlatIndex) (cs : List Vec) : M IvfFlatIndex :=
  if cs.length = idx.nlist then .ok { idx with centroids := cs }
  else .error .assertFail

/-- `IvfFlatIndex::Delete(key)`: remove every pair with this key from
every list. -/
def IvfFlatIndex.del (idx : IvfFlatIndex) (key : Key) : IvfFlatIndex :=
  { idx with invertedLists := idx.invertedLists.map (fun l => l.filter (fun p => p.1 ≠ key)) }

/- ### Probe iterator (src/vector.cc) -/

/-- The probe-list computation shared by `IvfFlatIterator::Seek` and
`IvfFlatIterator::SeekCluster`: distances to every centroid, then
`partial_sort(distances.begin(), distances.begin() + nprobe_, ...)` and
take the first `nprobe` centroid ids.  When `nprobe` exceeds the number
of centroids the source's `distances.begin() + nprobe_` lies beyond the
end of the array and the subsequent reads `distances[i]`, `i ≥ nlist`,
are out of bounds: `MErr.ub`.  `partial_sort` leaves the order of equal
distances unspecified; the model resolves ties to the lower centroid
index (a deterministic refinement). -/
def seekProbeLists (idx : IvfFlatIndex) (query : Vec) (nprobe : ℕ) : M (List ℕ) :=
  let distances :=
    (List.range idx.centroids.length).map
      (fun i => (GetDistanceL2Sq (idx.centroids.getD i []) query, i))
  if nprobe ≤ idx.centroids.length then
    .ok (((sortAscB
            (fun a b => decide (a.1 < b.1) || (decide (a.1 = b.1) && decide (a.2 < b.2)))
            distances).take nprobe).map Prod.snd)
  else .error .ub

/-- The posting list of probe cluster `cid`
(`index_.inverted_lists_[...]`, out of bounds is UB). -/
def getInvList (idx : IvfFlatIndex) (cid : ℕ) : M IvfList :=
  match idx.invertedLists.get? cid with
  | some l => .ok l
  | none => .error .ub

/-- One probe cluster in per-element order: candidates collected by
`CollectCandidates` and popped from the min-heap in ascending distance
(`GetDistanceL2Sq(vector, query_)`), ties in stable order. -/
def clusterSorted (idx : IvfFlatIndex) (query : Vec) (cid : ℕ) : M IvfList := do
  let l ← getInvList idx cid
  .ok (sortAscBy (fun p => GetDistanceL2Sq p.2 query) l)

/-- The whole per-element candidate stream of
`Seek`/`Valid`/`Next`/`GetKey`/`GetVector`.  Two boundary facts of the
source are preserved: `Seek` with an empty probe list reads
`probe_lists_[0]` out of bounds (`nprobe == 0`: UB), and when the first
probed cluster is empty `Valid()` is immediately false, so the stream
ends before later clusters are visited. -/
def seekStream (idx : IvfFlatIndex) (query : Vec) (nprobe : ℕ) : M IvfList := do
  let pl ← seekProbeLists idx query nprobe
  match pl with
  | [] => .error .ub
  | c0 :: rest => do
      let l0 ← clusterSorted idx query c0
      if l0 = [] then .ok []
      else do
        let ls ← (c0 :: rest).mapM (clusterSorted idx query)
        .ok ls.flatten

/- ### Bounded result heap (`std::priority_queue<QueryResult>`) -/

/-- Insert keeping the list sorted in descending distance (the new
element goes in front of equal distances; heap tie order is
unspecified). -/
def insertDesc (r : QueryResult) : List QueryResult → List QueryResult
  | [] => [r]
  | x :: xs => if x.distance ≤ r.distance then r :: x :: xs else x :: insertDesc r xs

/-- The bounded-heap insertion idiom shared by every strategy:
`if (pq.size() < k) push; else if (d < pq.top().distance) { pop; push; }`.
With `k == 0` the `else` branch evaluates `top()` of an empty
`priority_queue` — undefined behaviour. -/
def pqInsert (k : ℕ) (r : QueryResult) (pq : List QueryResult) : M (List QueryResult) :=
  if pq.length < k then .ok (insertDesc r pq)
  else
    match pq with
    | [] => .error .ub
    | t :: rest => if r.distance < t.distance then .ok (insertDesc r rest) else .ok (t :: rest)

/- ### Scalar filters (roxdb/db.h: `ApplyFilter`) -/

/-- Alternative index of a `std::variant<double, int, std::string>`. -/
def Scalar.tag : Scalar → ℕ
  | .d _ => 0
  | .i _ => 1
  | .s _ => 2

/-- `std::variant` `operator<`: by alternative index first, then by the
contained value. -/
def Scalar.ltB : Scalar → Scalar → Bool
  | .d a, .d b => decide (a < b)
  | .i a, .i b => decide (a < b)
  | .s a, .s b => charsLt a.data b.data
  | x, y => decide (x.tag < y.tag)

/-- Evaluate `filter.op` on `(scalar, filter.value)` exactly as the
`switch` in `ApplyFilter`. -/
def evalFilterOp (op : FilterOp) (a b : Scalar) : Bool :=
  match op with
  | .eq => a = b
  | .ne => a ≠ b
  | .gt => Scalar.ltB b a
  | .ge => !Scalar.ltB a b
  | .lt => Scalar.ltB a b
  | .le => !Scalar.ltB b a

/-- `ApplyFilter(schema, record, filter)`:
`record.scalars[schema.scalar_field_idx.at(filter.field)]` compared to
`filter.value`.  A missing field name throws from `at` (the function is
`noexcept`, so in C++ this terminates; either way it is a failure), an
out-of-range scalar index is UB. -/
def applyFilter (sc : Schema) (r : Record) (f : ScalarFilter) : M Bool := do
  match sc.scalarFieldIdx f.field with
  | none => .error .thrown
  | some i =>
      match r.scalars.get? i with
      | none => .error .ub
      | some s => .ok (evalFilterOp f.op s f.value)

/-- `std::ranges::all_of(filters, ApplyFilter...)` (short-circuiting). -/
def allFiltersPass (sc : Schema) (r : Record) : List ScalarFilter → M Bool
  | [] => .ok true
  | f :: t => do
      let b ← applyFilter sc r f
      if b then allFiltersPass sc r t else .ok false

/- ### DB model (src/impl.cc + src/storage.cc state) -/

/-- The `DbImpl` + `Storage` state relevant to the verified paths:
the schema, the record store (`records_cache_` merged with the RocksDB
record keys — `GetRecord` consults the cache first and decodes from the
KV store otherwise, with identical results), the per-field indexes and
the two dirty sets. -/
structure DbModel where
  schema : Schema
  records : List (Key × Record)
  indexes : List (String × IvfFlatIndex)
  dirtyIndexes : List String
  dirtyRecords : List Key
deriving DecidableEq

/-- `storage_->GetRecord(key)`: cache hit or KV decode; a missing key
throws `std::invalid_argument("Record not found")`. -/
def getRecordM (db : DbModel) (k : Key) : M Record :=
  match alookup db.records k with
  | some r => .ok r
  | none => .error .thrown

/-- `db_.indexes_.at(field)` (`unordered_map::at` throws on a missing
field). -/
def indexOfField (db : DbModel) (n : String) : M IvfFlatIndex :=
  match alookup db.indexes n with
  | some i => .ok i
  | none => .error .thrown

/-- `Storage::PutRecord`: `records_cache_[key] = record;`
`dirty_records_.insert(key);` — an unconditional overwrite. -/
def storagePutRecord (db : DbModel) (k : Key) (r : Record) : DbModel :=
  { db with
    records := aset db.records k r
    dirtyRecords := if db.dirtyRecords.contains k then db.dirtyRecords else k :: db.dirtyRecords }

/-- One vector-field step of `DbImpl::PutRecord`: look the field up,
fetch the record's vector for it, insert into the field's index and
mark it dirty. -/
def putRecordStep (k : Key) (r : Record) (st : DbModel) (fld : VectorField) : M DbModel := do
  let i ← match st.schema.vectorFieldIdx fld.name with
          | some i => (.ok i : M ℕ)
          | none => .error .thrown
  let v ← match r.vectors.get? i with
          | some v => (.ok v : M Vec)
          | none => .error .ub
  let idx ← indexOfField st fld.name
  let idx' ← idx.put k v
  .ok { st with
        indexes := aset st.indexes fld.name idx'
        dirtyIndexes := if st.dirtyIndexes.contains fld.name then st.dirtyIndexes else fld.name :: st.dirtyIndexes }

/-- `DbImpl::PutRecord(key, record)` (the storage-backed
implementation, src/impl.cc): write through the cache, then insert the
record's vectors into every field index. -/
def dbPutRecord (db : DbModel) (k : Key) (r : Record) : M DbModel :=
  db.schema.vectorFields.foldlM (putRecordStep k r) (storagePutRecord db k r)

/-- `DbImpl::GetRecord`. -/
def dbGetRecord (db : DbModel) (k : Key) : M Record := getRecordM db k

/-- `DbImpl::SetCentroids(field, centroids)`. -/
def dbSetCentroids (db : DbModel) (n : String) (cs : List Vec) : M DbModel := do
  match alookup db.indexes n with
  | none => .error .thrown
  | some idx => do
      let idx' ← idx.setCentroids cs
      .ok { db with
            indexes := aset db.indexes n idx'
            dirtyIndexes := if db.dirtyIndexes.contains n then db.dirtyIndexes else n :: db.dirtyIndexes }

/-- The create-mode constructor `DbImpl(path, options, schema)`:
one empty index per vector field; `centroids_.resize(nlist)` fills the
centroid array with `nlist` default-constructed (empty) vectors. -/
def dbCreate (sc : Schema) : DbModel :=
  { schema := sc
    records := []
    indexes := sc.vectorFields.map
      (fun f => (f.name, ⟨f.name, f.dim, f.numCentroids,
                          List.replicate f.numCentroids [],
                          List.replicate f.numCentroids []⟩))
    dirtyIndexes := []
    dirtyRecords := [] }

/-- Aggregate distance of a record
(`Σ w · GetDistanceL2Sq(query_vec, record.vectors[idx(field)])`,
the loop shared by every strategy). -/
def totalDistance (db : DbModel) (qvs : List QueryVec) (r : Record) : M ℚ :=
  qvs.foldlM
    (fun acc qv => do
      let i ← match db.schema.vectorFieldIdx qv.field with
              | some i => (.ok i : M ℕ)
              | none => .error .thrown
      let rv ← match r.vectors.get? i with
               | some v => (.ok v : M Vec)
               | none => .error .ub
      .ok (acc + GetDistanceL2Sq qv.vec rv * qv.weight))
    0

/- ### FullScan (src/impl.cc, storage-backed `DbImpl::FullScan`) -/

/-- The record iteration order of `FullScan`: a RocksDB prefix scan
over `"r:<decimal key>"` byte keys, i.e. records sorted by the
lexicographic order of their decimal key strings (explicitly not
numeric order). -/
def fullScanOrder (db : DbModel) : List (Key × Record) :=
  sortAscB (fun a b => charsLt (recordKeyChars a.1) (recordKeyChars b.1)) db.records

/-- One `FullScan` loop iteration: filters (unguarded `all_of`), the
aggregate distance (with the per-field `assert` on equal lengths), and
the bounded-heap insert with cap `query.limit`. -/
def fullScanStep (db : DbModel) (q : Query) (pq : List QueryResult) (kr : Key × Record) :
    M (List QueryResult) := do
  let pass ← allFiltersPass db.schema kr.2 q.filters
  if pass then do
    let d ← q.vectors.foldlM
      (fun acc qv => do
        let i ← match db.schema.vectorFieldIdx qv.field with
                | some i => (.ok i : M ℕ)
                | none => .error .thrown
        let rv ← match kr.2.vectors.get? i with
                 | some v => (.ok v : M Vec)
                 | none => .error .ub
        if qv.vec.length = rv.length then
          .ok (acc + GetDistanceL2Sq qv.vec rv * qv.weight)
        else .error .assertFail)
      0
    pqInsert q.limit ⟨kr.1, d⟩ pq
  else .ok pq

/-- `DbImpl::FullScan(query)`: `limit == 0` short-circuits to `[]`;
otherwise scan every record, keep the best `limit` in the max-heap,
drain it (largest first) and `std::ranges::reverse` — so the returned
list is ascending by aggregate distance. -/
def dbFullScan (db : DbModel) (q : Query) : M (List QueryResult) :=
  if q.limit = 0 then .ok []
  else do
    let pq ← (fullScanOrder db).foldlM (fullScanStep db q) []
    .ok pq.reverse

/- ### Round-robin TA KnnSearch (src/ha_query.cc, `QueryHandler::KnnSearch`) -/

/-- The handler's per-field iterator bundle (`QueryHandler::AptIterator`):
field, query vector, weight, the cluster-mode probe cursor and
`last_seen_distance` (initially `float` max). -/
structure IterSt where
  field : String
  qvec : Vec
  weight : ℚ
  probeList : List ℕ
  currentProb : ℕ
  lastSeen : ℚ
deriving DecidableEq

/-- Handler state: the iterators, the bounded max-heap and the visited
set. -/
structure HState where
  its : List IterSt
  pq : List QueryResult
  visited : List Key
deriving DecidableEq

/-- `IvfFlatIterator::HasNextCluster()`. -/
def hasNextCluster (it : IterSt) : Bool := it.currentProb < it.probeList.length

/-- `hasNextCluster` of iterator `i` of a state (false also when there
is no such iterator, which never happens on the reachable states). -/
def hasNextAt (s : HState) (i : ℕ) : Bool :=
  match s.its.get? i with
  | some it => hasNextCluster it
  | none => false

/-- Every field iterator has exhausted its probe clusters. -/
def allExhausted (s : HState) : Bool :=
  (List.range s.its.length).all (fun i => !hasNextAt s i)

/-- Processing of one `(key, record_vec)` pair of the current cluster
(the body of the parallel `std::for_each`, sequentialised in cluster
order; `i` is the position of the owning iterator).  The source order
is kept: field-local distance, visited check, record fetch, filters,
aggregate distance, `last_seen_distance` update, bounded-heap insert. -/
def processEntry (db : DbModel) (q : Query) (k : ℕ) (i : ℕ) (s : HState) (e : Key × Vec) :
    M HState := do
  let it ← match s.its.get? i with
           | some it => (.ok it : M IterSt)
           | none => .error .ub
  let dist := GetDistanceL2Sq it.qvec e.2
  if s.visited.contains e.1 then .ok s
  else do
    let s := { s with visited := e.1 :: s.visited }
    let r ← getRecordM db e.1
    let pass ← if q.filters.length > 0 then allFiltersPass db.schema r q.filters
               else (.ok true : M Bool)
    if pass then do
      let total ← totalDistance db q.vectors r
      let s := { s with its := listUpd s.its i (fun j => { j with lastSeen := minQ j.lastSeen dist }) }
      let pq' ← pqInsert k ⟨e.1, total⟩ s.pq
      .ok { s with pq := pq' }
    else .ok s

/-- One iterator's turn inside a round: skip it if it has no next
cluster, otherwise score its current cluster, advance the cluster
cursor and clear the round's `exhausted` flag. -/
def roundStep (db : DbModel) (q : Query) (k : ℕ) (sf : HState × Bool) (i : ℕ) :
    M (HState × Bool) := do
  let it ← match sf.1.its.get? i with
           | some it => (.ok it : M IterSt)
           | none => .error .ub
  if hasNextCluster it then do
    let idx ← indexOfField db it.field
    let cid ← match it.probeList.get? it.currentProb with
              | some c => (.ok c : M ℕ)
              | none => .error .ub
    let cluster ← getInvList idx cid
    let s' ← cluster.foldlM (processEntry db q k i) sf.1
    .ok ({ s' with its := listUpd s'.its i (fun j => { j with currentProb := j.currentProb + 1 }) }, false)
  else .ok sf

/-- One full round of the `while (true)` loop: every iterator gets a
turn, `exhausted` starts `true` and is cleared by any iterator that
still had a cluster. -/
def roundM (db : DbModel) (q : Query) (k : ℕ) (s : HState) : M (HState × Bool) :=
  (List.range s.its.length).foldlM (roundStep db q k) (s, true)

/-- State after one round. -/
def roundStateM (db : DbModel) (q : Query) (k : ℕ) (s : HState) : M HState := do
  let (s', _) ← roundM db q k s
  .ok s'

/-- State after `n` rounds. -/
def runRounds (db : DbModel) (q : Query) (k : ℕ) : ℕ → HState → M HState
  | 0, s => .ok s
  | n + 1, s => do
      let s' ← roundStateM db q k s
      runRounds db q k n s'

/-- `Σ_f last_seen_distance_f · weight_f` (summed in iterator order). -/
def distanceSum (s : HState) : ℚ :=
  s.its.foldl (fun acc it => acc + it.lastSeen * it.weight) 0

/-- The first half of the stopping test:
`pq.size() == k && distance_sum >= pq.top().distance` — `top()` of an
empty heap (only possible when `k == 0`) is UB. -/
def taCheck (k : ℕ) (s : HState) : M Bool :=
  if s.pq.length = k then
    match s.pq with
    | [] => .error .ub
    | t :: _ => .ok (decide (distanceSum s ≥ t.distance))
  else .ok false

/-- The `while (true)` loop of `QueryHandler::KnnSearch`, with fuel;
returns the final state together with the number of rounds executed.
The stop order matches the source: the TA check first, then the
`exhausted` flag. -/
def knnLoop (db : DbModel) (q : Query) (k : ℕ) : ℕ → HState → M (HState × ℕ)
  | 0, _ => .error .fuelOut
  | fuel + 1, s => do
      let (s', ex) ← roundM db q k s
      let a ← taCheck k s'
      if a then .ok (s', 1)
      else if ex then .ok (s', 1)
      else do
        let (s'', n) ← knnLoop db q k fuel s'
        .ok (s'', n + 1)

/-- Build the per-field iterators (`SeekCluster` each). -/
def mkIters (db : DbModel) (q : Query) (nprobe : ℕ) : M (List IterSt) :=
  q.vectors.mapM (fun qv => do
    let idx ← indexOfField db qv.field
    let pl ← seekProbeLists idx qv.vec nprobe
    .ok (⟨qv.field, qv.vec, qv.weight, pl, 0, floatMax⟩ : IterSt))

/-- `QueryHandler::KnnSearch(nprobe)`: run the loop, then drain the
max-heap front-first.  The `std::ranges::reverse(results)` of the
source is commented out, so the returned list is in descending
aggregate-distance order. -/
def qhKnnSearch (db : DbModel) (q : Query) (nprobe : ℕ) : M (List QueryResult) := do
  let its ← mkIters db q nprobe
  let fuel := (its.foldl (fun a it => a + it.probeList.length) 0) + 2
  let (s, _) ← knnLoop db q q.limit fuel ⟨its, [], []⟩
  .ok s.pq

/-- `DbImpl::KnnSearch(query, nprobe)`: `limit == 0` returns `[]`,
otherwise the multi-vector handler runs. -/
def dbKnnSearch (db : DbModel) (q : Query) (nprobe : ℕ) : M (List QueryResult) :=
  if q.limit = 0 then .ok [] else qhKnnSearch db q nprobe

/- ### Statements of the claimed and the actual stopping conditions -/

/-- The stopping condition exactly as C2 words it, evaluated on the
state reached after `m` rounds: the heap holds `k` elements and the
weighted `last_seen` sum has reached `top(H).distance`, or every field
iterator has exhausted its probe clusters. -/
def statedStopAfter (db : DbModel) (q : Query) (k : ℕ) (s : HState) (m : ℕ) : M Bool := do
  let sm ← runRounds db q k m s
  let a ← taCheck k sm
  .ok (a || allExhausted sm)

/-- The amended stopping condition: the TA check on the state after the
round, or every iterator was already exhausted when the round began
(equivalently, the round visited no cluster). -/
def amendedStopAfter (db : DbModel) (q : Query) (k : ℕ) (s : HState) (m : ℕ) : M Bool := do
  let sPrev ← runRounds db q k (m - 1) s
  let sm ← roundStateM db q k sPrev
  let a ← taCheck k sm
  .ok (a || allExhausted sPrev)

/- ### GetTopK and iterative merge (src/ha_query.cc) -/

/-- `QueryHandler::GetTopK(field, query, k, nprobe)`: a per-element
probe-iterator traversal feeding the bounded heap (cap `k`), drained
largest-distance-first into a key list. -/
def getTopK (db : DbModel) (field : String) (query : Vec) (k nprobe : ℕ) : M (List Key) := do
  let idx ← indexOfField db field
  let stream ← seekStream idx query nprobe
  let pq ← stream.foldlM
    (fun pq e => pqInsert k ⟨e.1, GetDistanceL2Sq query e.2⟩ pq) []
  .ok (pq.map (fun r => r.id))

/-- Loop state of `KnnSearchIterativeMerge`: the doubling `k`, the
global heap, the visited set and the per-field thresholds. -/
structure ItmSt where
  k : ℕ
  pq : List QueryResult
  visited : List Key
  thresholds : List (String × ℚ)
deriving DecidableEq

/-- Candidate collection of one round: the union of the per-field
top-`k` key lists minus the visited set (an `unordered_set`, modelled
as a dedup-keeping-first-appearance list). -/
def itmCandidates (db : DbModel) (q : Query) (nprobe : ℕ) (st : ItmSt) : M (List Key) :=
  q.vectors.foldlM
    (fun acc qv => do
      let topk ← getTopK db qv.field qv.vec st.k nprobe
      .ok (topk.foldl
        (fun a key => if st.visited.contains key || a.contains key then a else a ++ [key])
        acc))
    []

/-- Scoring of one candidate: fetch, filter (skipped candidates stay
unvisited), aggregate distance, mark visited, threshold updates, and
the bounded-heap insert with cap `ori_k`. -/
def itmScore (db : DbModel) (q : Query) (oriK : ℕ) (st : ItmSt) (key : Key) : M ItmSt := do
  let r ← getRecordM db key
  let pass ← if q.filters.length > 0 then allFiltersPass db.schema r q.filters
             else (.ok true : M Bool)
  if pass then do
    let total ← totalDistance db q.vectors r
    let st := { st with visited := key :: st.visited }
    let st ← q.vectors.foldlM
      (fun (acc : ItmSt) qv => do
        let i ← match db.schema.vectorFieldIdx qv.field with
                | some i => (.ok i : M ℕ)
                | none => .error .thrown
        let rv ← match r.vectors.get? i with
                 | some v => (.ok v : M Vec)
                 | none => .error .ub
        let d := GetDistanceL2Sq qv.vec rv
        .ok { acc with thresholds := aset acc.thresholds qv.field (minQ (alookupD acc.thresholds qv.field 0) d) })
      st
    let pq' ← pqInsert oriK ⟨key, total⟩ st.pq
    .ok { st with pq := pq' }
  else .ok st

/-- One round of the doubling loop body. -/
def itmRound (db : DbModel) (q : Query) (nprobe oriK : ℕ) (st : ItmSt) : M ItmSt := do
  let cands ← itmCandidates db q nprobe st
  cands.foldlM (itmScore db q oriK) st

/-- The TA stop test of the iterative merge:
`Σ threshold[f]·w_f`, then `pq.size() == ori_k && sum >= pq.top()` —
with `ori_k == 0` this reads `top()` of the empty heap (UB). -/
def itmStop (q : Query) (oriK : ℕ) (st : ItmSt) : M Bool :=
  let dsum := q.vectors.foldl
    (fun a qv => a + alookupD st.thresholds qv.field 0 * qv.weight) 0
  if st.pq.length = oriK then
    match st.pq with
    | [] => .error .ub
    | t :: _ => .ok (decide (dsum ≥ t.distance))
  else .ok false

/-- The `while (k < k_threshold)` loop, with fuel; returns the drained
heap and the number of executed rounds. -/
def itmLoop (db : DbModel) (q : Query) (nprobe oriK kThreshold : ℕ) :
    ℕ → ItmSt → M (List QueryResult × ℕ)
  | 0, _ => .error .fuelOut
  | fuel + 1, st =>
      if st.k < kThreshold then do
        let st' ← itmRound db q nprobe oriK st
        let stop ← itmStop q oriK st'
        if stop then .ok (st'.pq, 1)
        else do
          let (r, n) ← itmLoop db q nprobe oriK kThreshold fuel { st' with k := st'.k * 2 }
          .ok (r, n + 1)
      else .ok (st.pq, 0)

/-- `QueryHandler::KnnSearchIterativeMerge(nprobe, k_threshold)`
(called by `DbImpl::KnnSearchIterativeMerge`, which has no
`limit == 0` guard), together with the executed round count.  The heap
is drained front-first; no reverse — descending order. -/
def dbKnnSearchIterativeMergeR (db : DbModel) (q : Query) (nprobe kThreshold : ℕ) :
    M (List QueryResult × ℕ) :=
  itmLoop db q nprobe q.limit kThreshold (kThreshold + 2)
    ⟨q.limit, [], [], q.vectors.map (fun qv => (qv.field, floatMax))⟩

/-- `DbImpl::KnnSearchIterativeMerge(query, nprobe, k_threshold)`. -/
def dbKnnSearchIterativeMerge (db : DbModel) (q : Query) (nprobe kThreshold : ℕ) :
    M (List QueryResult) := do
  let (r, _) ← dbKnnSearchIterativeMergeR db q nprobe kThreshold
  .ok r

/- ### Index persistence (src/storage.cc, `RdbStorage::PutIndex`) -/

/-- The partition plan of `RdbStorage::PutIndex`:
`normalized = num_centroids * (dim / 128)` (integer division first),
`n_partitions = normalized / 1000`, plus one when the remainder is
non-zero; then `partition_size = num_centroids / n_partitions` — a
`size_t` division by zero whenever `n_partitions == 0` (always the case
for `dim < 128` or `num_centroids == 0`).  Returns the
`(offset, size)` of each written partition. -/
def putIndexPlan (numCentroids dim : ℕ) : M (List (ℕ × ℕ)) :=
  let normalized := numCentroids * (dim / 128)
  let nPartitions := normalized / 1000 + (if normalized % 1000 = 0 then 0 else 1)
  if nPartitions = 0 then .error .ub
  else
    let pSize := numCentroids / nPartitions
    let pRem := numCentroids % nPartitions
    .ok ((List.range nPartitions).map
      (fun i => (i * pSize, if i = nPartitions - 1 then pSize + pRem else pSize)))

/-- `RdbStorage::PutIndex(field, index)`: the
`assert(num_centroids == inverted_lists.size())`, then the partition
writes. -/
def putIndexM (idx : IvfFlatIndex) : M (List (ℕ × ℕ)) :=
  if idx.centroids.length = idx.invertedLists.length then
    putIndexPlan idx.centroids.length idx.dim
  else .error .assertFail

/-- The index-persist half of `DbImpl::~DbImpl`: write every dirty
index (records are flushed afterwards; irrelevant once the index write
fails). Returns the partition plans per field. -/
def dbClose (db : DbModel) : M (List (String × List (ℕ × ℕ))) :=
  db.indexes.foldlM
    (fun acc p =>
      if db.dirtyIndexes.contains p.1 then do
        let pl ← putIndexM p.2
        .ok (acc ++ [(p.1, pl)])
      else .ok acc)
    []

/-- The number of partitions claim C9 states:
`ceil((nlist · d / 128) / 1000)` in exact arithmetic, i.e.
`⌈nlist·d / 128000⌉` as a natural-number ceiling division. -/
def claimNumPartitions (nlist d : ℕ) : ℕ := (nlist * d + 128000 - 1) / 128000

/-- Is a result list ascending by aggregate distance? -/
def resultsAscending : List QueryResult → Bool
  | [] => true
  | [_] => true
  | a :: b :: t => decide (a.distance ≤ b.distance) && resultsAscending (b :: t)

/-- Bind a produced DB state into a following `get_record` (used to
state double-`put_record` behaviour without statement-level binders). -/
def thenGetRecord (m : M DbModel) (k : Key) : M Record := do
  let db ← m
  getRecordM db k

/-- Did the computation succeed (no exception, no UB)? -/
def isOkB {α : Type} : M α → Bool
  | .ok _ => true
  | .error _ => false

/-- The successful partition plan, `[]` on failure (a total accessor
used to state the partitioning spec without an existential). -/
def planOrNil (numCentroids dim : ℕ) : List (ℕ × ℕ) :=
  match putIndexPlan numCentroids dim with
  | .ok l => l
  | .error _ => []

/-- The probe-cursor projection of iterator `i` (what
`HasNextCluster`/`GetCluster` depend on). -/
def probeOf (s : HState) (i : ℕ) : Option (List ℕ × ℕ) :=
  (s.its.get? i).map (fun it => (it.probeList, it.currentProb))

/- ### Concrete instances used by the evaluation theorems -/

/-- Schema with a single 1-dimensional vector field over one centroid. -/
def scA : Schema := ⟨[⟨"v", 1, 1⟩], []⟩

/-- Records 0 and 1 at distances 0 and 4 from the origin query. -/
def recA0 : Record := ⟨0, [], [[0]]⟩

def recA1 : Record := ⟨1, [], [[2]]⟩

def idxA : IvfFlatIndex := ⟨"v", 1, 1, [[0]], [[(0, [0]), (1, [2])]]⟩

def dbA : DbModel := ⟨scA, [(0, recA0), (1, recA1)], [("v", idxA)], ["v"], [0, 1]⟩

def qA : Query := ⟨2, [⟨"v", [0], 1⟩], []⟩

/-- One record, `k = 2` (the heap never fills), single probe cluster. -/
def scB : Schema := ⟨[⟨"v", 1, 1⟩], []⟩

def recB0 : Record := ⟨0, [], [[0]]⟩

def idxB : IvfFlatIndex := ⟨"v", 1, 1, [[0]], [[(0, [0])]]⟩

def dbB : DbModel := ⟨scB, [(0, recB0)], [("v", idxB)], ["v"], [0]⟩

def qB : Query := ⟨2, [⟨"v", [0], 1⟩], []⟩

/-- The handler state after `SeekCluster` on `dbB`/`qB`. -/
def sB0 : HState := ⟨[⟨"v", [0], 1, [0], 0, floatMax⟩], [], []⟩

/-- The handler state after the first round on `dbB`/`qB`. -/
def sB1 : HState := ⟨[⟨"v", [0], 1, [0], 1, 0⟩], [⟨0, 0⟩], [0]⟩

/-- An empty database over `scA`-like schema (for the `limit == 0`
boundary). -/
def scC : Schema := ⟨[⟨"v", 1, 1⟩], []⟩

def idxC : IvfFlatIndex := ⟨"v", 1, 1, [[0]], [[]]⟩

def dbC : DbModel := ⟨scC, [], [("v", idxC)], [], []⟩

def qC : Query := ⟨0, [⟨"v", [0], 1⟩], []⟩

/-- Double-`put_record` scenario: create, set centroids, put key 0
twice with different vectors. -/
def scD : Schema := ⟨[⟨"v", 1, 1⟩], []⟩

def recD1 : Record := ⟨0, [], [[1]]⟩

def recD2 : Record := ⟨0, [], [[3]]⟩

def putTwiceD : M DbModel := do
  let d0 ← dbSetCentroids (dbCreate scD) "v" [[0]]
  let d1 ← dbPutRecord d0 0 recD1
  dbPutRecord d1 0 recD2

/-- Two centroids at equal distance 1 from the inserted vector `[1]`
(exercises the tie-break). -/
def idxE : IvfFlatIndex := ⟨"v", 1, 2, [[0], [2]], [[], []]⟩

/-- A one-centroid index probed with `nprobe = 2 > nlist`. -/
def idxF : IvfFlatIndex := ⟨"v", 1, 1, [[0]], [[]]⟩

/-- A two-centroid index for the `set_centroids` shape check. -/
def idxG : IvfFlatIndex := ⟨"v", 1, 2, [[0], [0]], [[], []]⟩

/-- The persistency-test shape: one vector field of dimension 3 with a
single centroid; set centroids, put one record, close. -/
def scH : Schema := ⟨[⟨"vec1", 3, 1⟩], []⟩

def recH : Record := ⟨0, [], [[1, 3, 5]]⟩

def closeScenarioH : M (List (String × List (ℕ × ℕ))) := do
  let d0 ← dbSetCentroids (dbCreate scH) "vec1" [[1, 3, 5]]
  let d1 ← dbPutRecord d0 0 recH
  dbClose d1

/- ### Supporting lemmas -/

@[simp] theorem mBind_ok {α β : Type} (a : α) (f : α → M β) :
    (Except.ok a : M α) >>= f = f a := rfl

@[simp] theorem mBind_error {α β : Type} (e : MErr) (f : α → M β) :
    (Except.error e : M α) >>= f = Except.error e := rfl

@[simp] theorem mOk_inj {α : Type} (a b : α) :
    (Except.ok a : M α) = Except.ok b ↔ a = b := by
  constructor
  · intro h; cases h; rfl
  · intro h; cases h; rfl

theorem mOk_ne_error {α : Type} (a : α) (e : MErr) :
    (Except.ok a : M α) ≠ Except.error e := by
  intro h; cases h

theorem alookup_aset_self {κ α : Type} [DecidableEq κ]
    (l : List (κ × α)) (k : κ) (v : α) : alookup (aset l k v) k = some v := by
  induction l with
  | nil => simp [aset, alookup]
  | cons h t ih =>
      by_cases hk : h.1 = k
      · simp [aset, hk, alookup]
      · simp [aset, hk, alookup, ih]

theorem alookup_aset_ne {κ α : Type} [DecidableEq κ]
    (l : List (κ × α)) (k k' : κ) (v : α) (h : k ≠ k') :
    alookup (aset l k v) k' = alookup l k' := by
  induction l with
  | nil => simp [aset, alookup, h]
  | cons hd t ih =>
      by_cases hk : hd.1 = k
      · simp [aset, hk, alookup, h]
      · simp [aset, hk, alookup, ih]

@[simp] theorem listUpd_length {α : Type} (l : List α) (i : ℕ) (f : α → α) :
    (listUpd l i f).length = l.length := by
  induction l generalizing i with
  | nil => simp [listUpd]
  | cons x xs ih =>
      cases i with
      | zero => simp [listUpd]
      | succ n => simp [listUpd, ih]

theorem listUpd_get?_ne {α : Type} (l : List α) (i j : ℕ) (f : α → α)
    (h : j ≠ i) : (listUpd l i f).get? j = l.get? j := by
  induction l generalizing i j with
  | nil => simp [listUpd]
  | cons x xs ih =>
      cases i with
      | zero =>
          cases j with
          | zero => exact absurd rfl h
          | succ m => simp [listUpd]
      | succ n =>
          cases j with
          | zero => simp [listUpd]
          | succ m =>
              simp only [listUpd, List.get?]
              exact ih n m (fun hc => h (by rw [hc]))

theorem listUpd_get?_self {α : Type} (l : List α) (i : ℕ) (f : α → α) :
    (listUpd l i f).get? i = (l.get? i).map f := by
  induction l generalizing i with
  | nil => simp [listUpd]
  | cons x xs ih =>
      cases i with
      | zero => simp [listUpd]
      | succ n => simpa [listUpd] using ih n

theorem argminIdx_lt_length (l : List ℚ) (h : l ≠ []) : argminIdx l < l.length := by
  induction l with
  | nil => exact absurd rfl h
  | cons x xs ih =>
      cases xs with
      | nil => simp [argminIdx]
      | cons y t =>
          have h2 : (y :: t : List ℚ) ≠ [] := by simp
          have := ih h2
          by_cases hc : (y :: t).getD (argminIdx (y :: t)) 0 < x
          · simp only [argminIdx, hc, if_true]
            simpa using Nat.succ_lt_succ this
          · simp only [argminIdx, hc, if_false]
            simp

theorem argminIdx_min (l : List ℚ) :
    ∀ j, j < l.length → l.getD (argminIdx l) 0 ≤ l.getD j 0 := by
  induction l with
  | nil => intro j hj; simp at hj
  | cons x xs ih =>
      cases xs with
      | nil =>
          intro j hj
          simp at hj
          subst hj
          simp [argminIdx]
      | cons y t =>
          intro j hj
          by_cases hc : (y :: t).getD (argminIdx (y :: t)) 0 < x
          · simp only [argminIdx, hc, if_true]
            cases j with
            | zero =>
                simpa using le_of_lt hc
            | succ m =>
                have hm : m < (y :: t).length := by simpa using Nat.lt_of_succ_lt_succ hj
                simpa using ih m hm
          · simp only [argminIdx, hc, if_false]
            push_neg at hc
            cases j with
            | zero => simp
            | succ m =>
                have hm : m < (y :: t).length := by simpa using Nat.lt_of_succ_lt_succ hj
                have := ih m hm
                simpa using le_trans hc this

theorem argminIdx_first (l : List ℚ) :
    ∀ j, j < argminIdx l → l.getD (argminIdx l) 0 < l.getD j 0 := by
  induction l with
  | nil => intro j hj; simp [argminIdx] at hj
  | cons x xs ih =>
      cases xs with
      | nil => intro j hj; simp [argminIdx] at hj
      | cons y t =>
          intro j hj
          by_cases hc : (y :: t).getD (argminIdx (y :: t)) 0 < x
          · simp only [argminIdx, hc, if_true] at hj ⊢
            cases j with
            | zero => simpa using hc
            | succ m =>
                have hm : m < argminIdx (y :: t) := Nat.lt_of_succ_lt_succ hj
                simpa using ih m hm
          · simp only [argminIdx, hc, if_false] at hj
            exact absurd hj (Nat.not_lt_zero j)

theorem bind_ok_elim {α β : Type} (m : M α) (f : α → M β) (b : β)
    (h : m >>= f = .ok b) : ∃ a, m = .ok a ∧ f a = .ok b := by
  cases m with
  | ok a => exact ⟨a, rfl, h⟩
  | error e => simp at h

theorem probeOf_hasNext (s s' : HState) (i : ℕ) (h : probeOf s i = probeOf s' i) :
    hasNextAt s i = hasNextAt s' i := by
  unfold probeOf at h
  cases hg : s.its.get? i with
  | none =>
      cases hg' : s'.its.get? i with
      | none => unfold hasNextAt; rw [hg, hg']
      | some it' => rw [hg, hg'] at h; simp at h
  | some it =>
      cases hg' : s'.its.get? i with
      | none => rw [hg, hg'] at h; simp at h
      | some it' =>
          rw [hg, hg'] at h
          simp only [Option.map_some', Option.some_inj, Prod.mk.injEq] at h
          unfold hasNextAt
          rw [hg, hg']
          simp [hasNextCluster, h.1, h.2]

theorem processEntry_probeOf (db : DbModel) (q : Query) (k i : ℕ) (s : HState)
    (e : Key × Vec) (s' : HState) (h : processEntry db q k i s e = .ok s') :
    ∀ j, probeOf s' j = probeOf s j := by
  intro j
  rw [processEntry] at h
  split at h
  · obtain ⟨it2, hit2, h⟩ := bind_ok_elim _ _ _ h
    try simp only [] at h
    split at h
    · rw [mOk_inj] at h
      subst h
      rfl
    · obtain ⟨r, hr, h⟩ := bind_ok_elim _ _ _ h
      try simp only [] at h
      split at h
      · obtain ⟨pass, hp, h⟩ := bind_ok_elim _ _ _ h
        try simp only [] at h
        split at h
        · obtain ⟨total, ht, h⟩ := bind_ok_elim _ _ _ h
          try simp only [] at h
          obtain ⟨pq', hq2, h⟩ := bind_ok_elim _ _ _ h
          try simp only [] at h
          rw [mOk_inj] at h
          subst h
          unfold probeOf
          by_cases hji : j = i
          · subst hji
            simp only []
            rw [listUpd_get?_self]
            cases s.its.get? j <;> rfl
          · simp only []
            rw [listUpd_get?_ne _ _ _ _ hji]
        · rw [mOk_inj] at h
          subst h
          rfl
      · obtain ⟨pass, hp, h⟩ := bind_ok_elim _ _ _ h
        try simp only [] at h
        split at h
        · obtain ⟨total, ht, h⟩ := bind_ok_elim _ _ _ h
          try simp only [] at h
          obtain ⟨pq', hq2, h⟩ := bind_ok_elim _ _ _ h
          try simp only [] at h
          rw [mOk_inj] at h
          subst h
          unfold probeOf
          by_cases hji : j = i
          · subst hji
            simp only []
            rw [listUpd_get?_self]
            cases s.its.get? j <;> rfl
          · simp only []
            rw [listUpd_get?_ne _ _ _ _ hji]
        · rw [mOk_inj] at h
          subst h
          rfl
  · simp at h

theorem foldProcess_probeOf (db : DbModel) (q : Query) (k i : ℕ) :
    ∀ (cl : IvfList) (s s1 : HState),
    List.foldlM (processEntry db q k i) s cl = .ok s1 →
    ∀ j, probeOf s1 j = probeOf s j := by
  intro cl
  induction cl with
  | nil =>
      intro s s1 h j
      rw [show List.foldlM (processEntry db q k i) s ([] : IvfList) = Except.ok s from rfl] at h
      rw [mOk_inj] at h
      subst h
      rfl
  | cons x xs ih =>
      intro s s1 h j
      simp only [List.foldlM] at h
      obtain ⟨s2, hs2, h⟩ := bind_ok_elim _ _ _ h
      exact (ih s2 s1 h j).trans (processEntry_probeOf db q k i s x s2 hs2 j)

theorem roundStep_spec (db : DbModel) (q : Query) (k : ℕ) (sf : HState × Bool) (i : ℕ)
    (s' : HState) (f' : Bool) (h : roundStep db q k sf i = .ok (s', f')) :
    (∀ j, j ≠ i → probeOf s' j = probeOf sf.1 j)
    ∧ f' = (sf.2 && !hasNextAt sf.1 i) := by
  rw [roundStep] at h
  split at h
  · rename_i it heq
    obtain ⟨it2, hit2, h⟩ := bind_ok_elim _ _ _ h
    rw [mOk_inj] at hit2
    subst hit2
    try simp only [] at h
    split at h
    · rename_i hnc
      obtain ⟨idx, hidx, h⟩ := bind_ok_elim _ _ _ h
      try simp only [] at h
      split at h
      · rename_i cid hcid
        obtain ⟨cid2, hcid2, h⟩ := bind_ok_elim _ _ _ h
        rw [mOk_inj] at hcid2
        subst hcid2
        try simp only [] at h
        obtain ⟨cluster, hcl, h⟩ := bind_ok_elim _ _ _ h
        try simp only [] at h
        obtain ⟨s1, hfold, h⟩ := bind_ok_elim _ _ _ h
        try simp only [] at h
        rw [mOk_inj, Prod.mk.injEq] at h
        obtain ⟨h1, h2⟩ := h
        subst h1
        subst h2
        constructor
        · intro j hji
          have hstep : probeOf { s1 with its := listUpd s1.its i (fun it => { it with currentProb := it.currentProb + 1 }) } j = probeOf s1 j := by
            unfold probeOf
            simp only []
            rw [listUpd_get?_ne _ _ _ _ hji]
          rw [hstep]
          exact foldProcess_probeOf db q k i cluster sf.1 s1 hfold j
        · unfold hasNextAt
          rw [heq]
          simp [hnc]
      · simp at h
    · rename_i hnc
      rw [mOk_inj] at h
      have h1 : s' = sf.1 := (congrArg Prod.fst h).symm
      have h2 : f' = sf.2 := (congrArg Prod.snd h).symm
      subst h1
      subst h2
      refine ⟨fun j _ => rfl, ?_⟩
      unfold hasNextAt
      rw [heq]
      simp only [Bool.not_eq_true] at hnc
      simp [hnc]
  · simp at h

theorem roundFold_flag (db : DbModel) (q : Query) (k : ℕ) (sOrig : HState) :
    ∀ (is : List ℕ), is.Nodup → ∀ (s : HState) (f : Bool) (res : HState × Bool),
    List.foldlM (roundStep db q k) (s, f) is = .ok res →
    (∀ j, j ∈ is → probeOf s j = probeOf sOrig j) →
    res.2 = (f && is.all (fun i => !hasNextAt sOrig i)) := by
  intro is
  induction is with
  | nil =>
      intro _ s f res h _
      rw [show List.foldlM (roundStep db q k) (s, f) ([] : List ℕ) = Except.ok (s, f) from rfl] at h
      rw [mOk_inj] at h
      subst h
      simp
  | cons i t ih =>
      intro hnd s f res h hinv
      simp only [List.foldlM] at h
      obtain ⟨sf1, hstep, h⟩ := bind_ok_elim _ _ _ h
      obtain ⟨hpres, hflag⟩ := roundStep_spec db q k (s, f) i sf1.1 sf1.2 hstep
      have hnd' := List.nodup_cons.mp hnd
      have hinv' : ∀ j, j ∈ t → probeOf sf1.1 j = probeOf sOrig j := by
        intro j hj
        have hji : j ≠ i := fun hc => hnd'.1 (hc ▸ hj)
        rw [hpres j hji]
        exact hinv j (List.mem_cons_of_mem _ hj)
      have hres := ih hnd'.2 sf1.1 sf1.2 res h hinv'
      have hh : hasNextAt s i = hasNextAt sOrig i :=
        probeOf_hasNext _ _ _ (hinv i (List.mem_cons_self _ _))
      rw [hres, hflag]
      simp only [] at hh ⊢
      rw [hh]
      simp [Bool.and_assoc]

theorem roundM_flag (db : DbModel) (q : Query) (k : ℕ) (s : HState) (res : HState × Bool)
    (h : roundM db q k s = .ok res) : res.2 = allExhausted s := by
  have := roundFold_flag db q k s (List.range s.its.length) (List.nodup_range _) s true res h
    (fun j _ => rfl)
  rw [this]
  simp [allExhausted]

theorem runRounds_succ (db : DbModel) (q : Query) (k n : ℕ) (s s1 : HState)
    (h : roundStateM db q k s = .ok s1) :
    runRounds db q k (n + 1) s = runRounds db q k n s1 := by
  rw [runRounds, h, mBind_ok]

theorem runRounds_one (db : DbModel) (q : Query) (k : ℕ) (s s1 : HState)
    (h : roundStateM db q k s = .ok s1) : runRounds db q k 1 s = .ok s1 := by
  show runRounds db q k (0 + 1) s = .ok s1
  rw [runRounds_succ db q k 0 s s1 h]
  rfl

theorem amendedStopAfter_shift (db : DbModel) (q : Query) (k : ℕ) (s s1 : HState) (m : ℕ)
    (h : roundStateM db q k s = .ok s1) (hm : 2 ≤ m) :
    amendedStopAfter db q k s m = amendedStopAfter db q k s1 (m - 1) := by
  obtain ⟨m2, rfl⟩ : ∃ m2, m = m2 + 2 := ⟨m - 2, by omega⟩
  unfold amendedStopAfter
  rw [show m2 + 2 - 1 = m2 + 1 from rfl]
  rw [show m2 + 1 - 1 = m2 from rfl]
  rw [runRounds_succ db q k m2 s s1 h]

/- ### Claim theorems -/

/-- C1: the claim states that every strategy returns its results sorted
ascending by aggregate distance.  Evaluating the embedded
`QueryHandler::KnnSearch` on a two-record database refutes this: the
max-heap is drained top-first and the final
`std::ranges::reverse(results)` is commented out, so `knn_search`
returns `[(1, 4), (0, 0)]` — descending — while `FullScan` (whose
reverse is active) returns the same results ascending. -/
theorem knnSearch_returns_descending :
    dbKnnSearch dbA qA 1 = .ok [⟨1, 4⟩, ⟨0, 0⟩]
    ∧ resultsAscending [⟨1, 4⟩, ⟨0, 0⟩] = false
    ∧ dbFullScan dbA qA = .ok [⟨0, 0⟩, ⟨1, 4⟩]
    ∧ resultsAscending [⟨0, 0⟩, ⟨1, 4⟩] = true := by
  refine ⟨?_, rfl, ?_, rfl⟩ <;> with_unfolding_all rfl

/-- C3: the claim states that `limit == 0` queries return `[]` without
error for every strategy.  `full_scan` and `knn_search` have the guard
and do return `[]`, but `DbImpl::KnnSearchIterativeMerge` has no guard:
with `limit = 0` and `k_threshold = 1` its stop test evaluates
`pq.top()` on the empty result heap (`pq.size() == ori_k` holds with
both zero) — undefined behaviour, here on the empty database. -/
theorem limitZero_iterativeMerge_ub :
    dbKnnSearchIterativeMergeR dbC qC 1 1 = .error .ub
    ∧ dbKnnSearch dbC qC 1 = .ok []
    ∧ dbFullScan dbC qC = .ok [] :=
  ⟨rfl, rfl, rfl⟩

/-- C6: the claim states that `nprobe > nlist` is treated as `nlist`
with no out-of-bounds access.  In the source neither `Seek` nor
`SeekCluster` clamps `nprobe`: `partial_sort` receives a middle
iterator `distances.begin() + nprobe_` past the end of the array and
the subsequent loop reads `distances[i]` for `i ≥ nlist` — out of
bounds.  On a 1-centroid index, `nprobe = 2` is UB while `nprobe = 1`
probes the single cluster. -/
theorem seek_nprobe_out_of_bounds :
    seekProbeLists idxF [0] 2 = .error .ub
    ∧ seekProbeLists idxF [0] 1 = .ok [0] :=
  ⟨rfl, rfl⟩

/-- C8: the claim states that close + reopen preserves schema, records
and centroids.  Closing never gets that far for ordinary schemas: with
`dim = 3 < 128` (the shape used by the repository's own
`tests/persistency.cc`), `RdbStorage::PutIndex` computes
`normalized = nlist · (3 / 128) = 0`, hence `n_partitions = 0`, and
`num_centroids / n_partitions` divides by zero.  The persist half of
`~DbImpl` fails before anything can round-trip. -/
theorem close_divides_by_zero :
    closeScenarioH = .error .ub :=
  rfl

/-- C2 (counterexample): the claim says the loop terminates exactly
when, after a round, the TA condition holds or every iterator has
exhausted its probe clusters.  With one record and `k = 2`, after round
1 every iterator is exhausted and the TA condition fails — the claim
says stop — yet the loop executes a second (empty) round, because the
source's `exhausted` flag reflects the state at the start of a round:
`knnLoop` runs 2 rounds although the claimed condition already held
after round 1. -/
theorem knnLoop_runs_extra_round :
    knnLoop dbB qB 2 5 sB0 = .ok (sB1, 2)
    ∧ statedStopAfter dbB qB 2 sB0 1 = .ok true
    ∧ (1 : ℕ) < 2 := by
  refine ⟨?_, ?_, by decide⟩ <;> with_unfolding_all rfl

/-- C2 (amended): the round-robin loop of `QueryHandler::KnnSearch`
executes at least one round and stops after exactly `n` rounds, where
`n` is the first round after which either (a) the heap holds `k`
elements and `Σ_f w_f · last_seen_distance_f ≥ top(H).distance`, or
(b') every field iterator was already exhausted when that round began
(equivalently: the round visited no cluster).  This differs from the
claim only in (b'): the source's `exhausted` flag describes the round's
start, so a round that consumes the final clusters without satisfying
(a) is followed by one further, empty round. -/
theorem knnLoop_stop_characterization (db : DbModel) (q : Query) (k fuel : ℕ)
    (s sF : HState) (n : ℕ) (h : knnLoop db q k fuel s = .ok (sF, n)) :
    1 ≤ n ∧ runRounds db q k n s = .ok sF
    ∧ (∀ m, 1 ≤ m → m < n → amendedStopAfter db q k s m = .ok false)
    ∧ amendedStopAfter db q k s n = .ok true := by
  induction fuel generalizing s sF n with
  | zero => simp [knnLoop] at h
  | succ fuel ih =>
      rw [knnLoop] at h
      obtain ⟨sf1, hround, h⟩ := bind_ok_elim _ _ _ h
      obtain ⟨s1, ex⟩ := sf1
      try simp only [] at h
      obtain ⟨a, hta, h⟩ := bind_ok_elim _ _ _ h
      try simp only [] at h
      have hrs : roundStateM db q k s = .ok s1 := by
        rw [roundStateM, hround, mBind_ok]
      have hexh : ex = allExhausted s := roundM_flag db q k s (s1, ex) hround
      have hstop1 : amendedStopAfter db q k s 1 = .ok (a || allExhausted s) := by
        unfold amendedStopAfter
        rw [show (1 : ℕ) - 1 = 0 from rfl]
        rw [show runRounds db q k 0 s = .ok s from rfl]
        rw [mBind_ok, hrs, mBind_ok, hta, mBind_ok]
      split at h
      · rename_i ha
        rw [mOk_inj, Prod.mk.injEq] at h
        obtain ⟨h1, h2⟩ := h
        subst h1
        subst h2
        refine ⟨le_refl 1, runRounds_one db q k s _ hrs, ?_, ?_⟩
        · intro m hm1 hm2
          exact absurd hm2 (by omega)
        · rw [hstop1, ha]
          simp
      · rename_i ha
        split at h
        · rename_i hex
          rw [mOk_inj, Prod.mk.injEq] at h
          obtain ⟨h1, h2⟩ := h
          subst h1
          subst h2
          refine ⟨le_refl 1, runRounds_one db q k s _ hrs, ?_, ?_⟩
          · intro m hm1 hm2
            exact absurd hm2 (by omega)
          · rw [hstop1, ← hexh, hex]
            simp
        · rename_i hex
          obtain ⟨p, hk, h⟩ := bind_ok_elim _ _ _ h
          obtain ⟨s2, n2⟩ := p
          try simp only [] at h
          rw [mOk_inj, Prod.mk.injEq] at h
          obtain ⟨h1, h2⟩ := h
          subst h1
          subst h2
          obtain ⟨ihn, ihrun, ihprev, ihstop⟩ := ih s1 _ n2 hk
          simp only [Bool.not_eq_true] at ha hex
          refine ⟨by omega, ?_, ?_, ?_⟩
          · rw [runRounds_succ db q k n2 s s1 hrs]
            exact ihrun
          · intro m hm1 hm2
            by_cases hm : m = 1
            · subst hm
              rw [hstop1, ha, ← hexh, hex]
              simp
            · rw [amendedStopAfter_shift db q k s s1 m hrs (by omega)]
              exact ihprev (m - 1) (by omega) (by omega)
          · rw [amendedStopAfter_shift db q k s s1 (n2 + 1) hrs (by omega)]
            simpa using ihstop

/-- C2 (witness): on the one-record, `k = 2` scenario the loop runs two
rounds, and the amended condition first holds after round 2. -/
theorem knnLoop_stop_characterization_witness :
    amendedStopAfter dbB qB 2 sB0 2 = .ok true :=
  (knnLoop_stop_characterization dbB qB 2 5 sB0 sB1 2 (by with_unfolding_all rfl)).2.2.2

/-- C4 (counterexample): the claim says `put_record` of an existing key
raises a `UsageError`.  The storage-backed `DbImpl::PutRecord` performs
`records_cache_[key] = record` — putting key 0 twice succeeds without
any error and `get_record` afterwards returns the second record. -/
theorem putRecord_existing_key_overwrites :
    isOkB putTwiceD = true
    ∧ thenGetRecord putTwiceD 0 = .ok recD2
    ∧ recD1 ≠ recD2 :=
  ⟨rfl, rfl, by decide⟩

/-- C4 (amended): `Storage::PutRecord` of a key already present
overwrites the cached record unconditionally — for every database
state, putting `r0` then `r` under the same key leaves `r` as the
stored record, and no error is raised (the operation is total). -/
theorem storagePut_overwrites (db : DbModel) (k : Key) (r0 r : Record) :
    getRecordM (storagePutRecord (storagePutRecord db k r0) k r) k = .ok r := by
  simp [getRecordM, storagePutRecord, alookup_aset_self]

/-- C9 (counterexample): the claim's partition count
`ceil((nlist · d / 128) / 1000)` disagrees with the code, which
computes `nlist · (d / 128)` with truncating integer division first:
for `nlist = 1000, d = 200` the code writes a single partition holding
all 1000 centroids while the claimed formula gives 2. -/
theorem putIndex_partition_count_mismatch :
    putIndexPlan 1000 200 = .ok [(0, 1000)]
    ∧ claimNumPartitions 1000 200 = 2
    ∧ ([((0 : ℕ), (1000 : ℕ))] : List (ℕ × ℕ)).length ≠ claimNumPartitions 1000 200 :=
  ⟨rfl, rfl, by decide⟩

/-- C10: with `query.limit ≥ k_threshold` the `while (k < k_threshold)`
condition fails immediately: `knn_search_iterative_merge` returns the
empty list after zero rounds — no per-field top-k search, record fetch
or candidate scoring can run, since all of them live in the loop
body. -/
theorem iterativeMerge_kThreshold_immediate
    (db : DbModel) (q : Query) (nprobe kThreshold : ℕ)
    (h : kThreshold ≤ q.limit) :
    dbKnnSearchIterativeMergeR db q nprobe kThreshold = .ok ([], 0) := by
  show itmLoop db q nprobe q.limit kThreshold (kThreshold + 1 + 1) _ = .ok ([], 0)
  rw [itmLoop]
  simp [Nat.not_lt.mpr h]

/-- C10 (witness). -/
theorem iterativeMerge_kThreshold_immediate_witness :
    (1 : ℕ) ≤ 2
    ∧ dbKnnSearchIterativeMergeR (dbCreate ⟨[], []⟩) ⟨2, [], []⟩ 3 1 = .ok ([], 0) :=
  ⟨by decide, iterativeMerge_kThreshold_immediate (dbCreate ⟨[], []⟩) ⟨2, [], []⟩ 3 1 (by decide)⟩

/-- C7: `IvfFlatIndex::SetCentroids` checks
`assert(centroids.size() == nlist_)` (the build defines no `NDEBUG`,
so the assert is active): a list of the wrong length fails — the
ShapeError kind of the specification, realised as an assertion
failure, leaving the centroid array unchanged — and a list of length
`nlist` replaces the centroid array and nothing else. -/
theorem setCentroids_shape_check (idx : IvfFlatIndex) (cs : List Vec) :
    (cs.length ≠ idx.nlist → idx.setCentroids cs = .error .assertFail)
    ∧ (cs.length = idx.nlist → idx.setCentroids cs = .ok { idx with centroids := cs }) := by
  constructor
  · intro h
    simp [IvfFlatIndex.setCentroids, h]
  · intro h
    simp [IvfFlatIndex.setCentroids, h]

/-- C5: for a non-empty centroid list and a vector of the schema
dimension, `IvfFlatIndex::Put(key, v)` appends `(key, v)` to
`inverted_lists[c*]` where `c*` is the index of the first minimal
`GetDistanceL2Sq(centroids[c], v)` — the lowest index on ties — and
modifies nothing else: the centroid array is untouched and every other
inverted list is untouched (`List.set` touches only position `c*`). -/
theorem ivfPut_appends_to_argmin (idx : IvfFlatIndex) (key : Key) (v : Vec)
    (hne : idx.centroids ≠ [])
    (hd : v.length = idx.dim)
    (hl : idx.invertedLists.length = idx.centroids.length) :
    idx.put key v =
      .ok { idx with invertedLists := idx.invertedLists.set (argminIdx (idx.centroids.map (fun c => GetDistanceL2Sq c v))) (idx.invertedLists.getD (argminIdx (idx.centroids.map (fun c => GetDistanceL2Sq c v))) [] ++ [(key, v)]) }
    ∧ (∀ j, j < idx.centroids.length →
        (idx.centroids.map (fun c => GetDistanceL2Sq c v)).getD
            (argminIdx (idx.centroids.map (fun c => GetDistanceL2Sq c v))) 0
          ≤ (idx.centroids.map (fun c => GetDistanceL2Sq c v)).getD j 0)
    ∧ (∀ j, j < argminIdx (idx.centroids.map (fun c => GetDistanceL2Sq c v)) →
        (idx.centroids.map (fun c => GetDistanceL2Sq c v)).getD
            (argminIdx (idx.centroids.map (fun c => GetDistanceL2Sq c v))) 0
          < (idx.centroids.map (fun c => GetDistanceL2Sq c v)).getD j 0) := by
  have hmapne : idx.centroids.map (fun c => GetDistanceL2Sq c v) ≠ [] := by
    simpa using hne
  have hlen : (idx.centroids.map (fun c => GetDistanceL2Sq c v)).length
      = idx.centroids.length := List.length_map _ _
  have hcl : argminIdx (idx.centroids.map (fun c => GetDistanceL2Sq c v))
      < idx.centroids.length := by
    have := argminIdx_lt_length _ hmapne
    rwa [hlen] at this
  have hlt : argminIdx (idx.centroids.map (fun c => GetDistanceL2Sq c v))
      < idx.invertedLists.length := by rwa [hl]
  have hq := List.get?_eq_get hlt
  have hgetD : idx.invertedLists.getD
      (argminIdx (idx.centroids.map (fun c => GetDistanceL2Sq c v))) []
      = idx.invertedLists.get ⟨_, hlt⟩ := by
    simp [List.getD, List.getElem?_eq_getElem hlt]
  refine ⟨?_, ?_, ?_⟩
  · rw [IvfFlatIndex.put, AssignCentroid, if_neg hne, if_neg (by simp [hd])]
    rw [mBind_ok, hq, hgetD]
  · intro j hj
    exact argminIdx_min _ j (by rwa [hlen])
  · intro j hj
    exact argminIdx_first _ j hj

/-- C5 (witness): inserting `[1]` into the index with centroids
`[[0], [2]]` — both at squared distance 1 — appends to inverted list 0
(the lower index wins the tie) and leaves list 1 and the centroids
unchanged. -/
theorem ivfPut_appends_to_argmin_witness :
    IvfFlatIndex.put idxE 5 [1] = .ok ⟨"v", 1, 2, [[0], [2]], [[(5, [1])], []]⟩ := by
  have h := (ivfPut_appends_to_argmin idxE 5 [1] (by simp [idxE]) rfl rfl).1
  with_unfolding_all exact h

/-- C9 (amended): when `nlist · ⌊d / 128⌋ > 0`, the number of written
partitions is `⌈nlist · ⌊d / 128⌋ / 1000⌉` (the code divides `d` by 128
with truncation *before* multiplying, unlike the claimed formula);
every partition except the last holds `⌊nlist / n_partitions⌋`
centroids and the last additionally receives the remainder
`nlist mod n_partitions`.  When `nlist · ⌊d / 128⌋ = 0` the write
divides by zero instead. -/
theorem putIndexPlan_partition_sizes (numC dim : ℕ) (h : 0 < numC * (dim / 128)) :
    putIndexPlan numC dim = .ok (planOrNil numC dim)
    ∧ (planOrNil numC dim).length = (numC * (dim / 128) + 999) / 1000
    ∧ (∀ i, i + 1 < (planOrNil numC dim).length →
        (planOrNil numC dim).get? i =
          some (i * (numC / (planOrNil numC dim).length),
                numC / (planOrNil numC dim).length))
    ∧ (planOrNil numC dim).get? ((planOrNil numC dim).length - 1) =
        some (((planOrNil numC dim).length - 1) * (numC / (planOrNil numC dim).length),
              numC / (planOrNil numC dim).length + numC % (planOrNil numC dim).length) := by
  have hn : numC * (dim / 128) / 1000
      + (if numC * (dim / 128) % 1000 = 0 then 0 else 1) ≠ 0 := by
    by_cases hm : numC * (dim / 128) % 1000 = 0
    · simp only [hm, if_true]
      omega
    · simp only [hm, if_false]
      omega
  have hplan : putIndexPlan numC dim =
      .ok ((List.range (numC * (dim / 128) / 1000
              + (if numC * (dim / 128) % 1000 = 0 then 0 else 1))).map
        (fun i => (i * (numC / (numC * (dim / 128) / 1000
                    + (if numC * (dim / 128) % 1000 = 0 then 0 else 1))),
                   if i = (numC * (dim / 128) / 1000
                    + (if numC * (dim / 128) % 1000 = 0 then 0 else 1)) - 1
                   then numC / (numC * (dim / 128) / 1000
                    + (if numC * (dim / 128) % 1000 = 0 then 0 else 1))
                    + numC % (numC * (dim / 128) / 1000
                    + (if numC * (dim / 128) % 1000 = 0 then 0 else 1))
                   else numC / (numC * (dim / 128) / 1000
                    + (if numC * (dim / 128) % 1000 = 0 then 0 else 1))))) := by
    rw [putIndexPlan]
    simp only [hn, if_false]
  have hpon : planOrNil numC dim =
      (List.range (numC * (dim / 128) / 1000
          + (if numC * (dim / 128) % 1000 = 0 then 0 else 1))).map
        (fun i => (i * (numC / (numC * (dim / 128) / 1000
                    + (if numC * (dim / 128) % 1000 = 0 then 0 else 1))),
                   if i = (numC * (dim / 128) / 1000
                    + (if numC * (dim / 128) % 1000 = 0 then 0 else 1)) - 1
                   then numC / (numC * (dim / 128) / 1000
                    + (if numC * (dim / 128) % 1000 = 0 then 0 else 1))
                    + numC % (numC * (dim / 128) / 1000
                    + (if numC * (dim / 128) % 1000 = 0 then 0 else 1))
                   else numC / (numC * (dim / 128) / 1000
                    + (if numC * (dim / 128) % 1000 = 0 then 0 else 1)))) := by
    rw [planOrNil, hplan]
  have hlen : (planOrNil numC dim).length
      = numC * (dim / 128) / 1000
        + (if numC * (dim / 128) % 1000 = 0 then 0 else 1) := by
    rw [hpon]
    simp
  have hceil : numC * (dim / 128) / 1000
      + (if numC * (dim / 128) % 1000 = 0 then 0 else 1)
      = (numC * (dim / 128) + 999) / 1000 := by
    by_cases hm : numC * (dim / 128) % 1000 = 0
    · simp only [hm, if_true]
      omega
    · simp only [hm, if_false]
      omega
  refine ⟨?_, ?_, ?_, ?_⟩
  · rw [hplan, ← hpon]
  · rw [hlen, hceil]
  · intro i hi
    rw [hlen] at hi ⊢
    rw [hpon]
    have hb : i < numC * (dim / 128) / 1000
        + (if numC * (dim / 128) % 1000 = 0 then 0 else 1) := by omega
    have hni : i ≠ numC * (dim / 128) / 1000
        + (if numC * (dim / 128) % 1000 = 0 then 0 else 1) - 1 := by omega
    rw [List.get?_map, List.get?_range hb]
    simp only [Option.map_some']
    rw [if_neg hni]
  · rw [hlen, hpon]
    have hb : numC * (dim / 128) / 1000
        + (if numC * (dim / 128) % 1000 = 0 then 0 else 1) - 1
        < numC * (dim / 128) / 1000
        + (if numC * (dim / 128) % 1000 = 0 then 0 else 1) := by omega
    rw [List.get?_map, List.get?_range hb]
    simp only [Option.map_some']
    simp

/-- C9 (witness): for `nlist = 1000, d = 256` the code writes
`⌈1000·⌊256/128⌋/1000⌉ = 2` partitions of 500 centroids each. -/
theorem putIndexPlan_partition_sizes_witness :
    (0 : ℕ) < 1000 * (256 / 128)
    ∧ (planOrNil 1000 256).length = (1000 * (256 / 128) + 999) / 1000 :=
  ⟨by decide, (putIndexPlan_partition_sizes 1000 256 (by decide)).2.1⟩

/-- C7 (witness): on the 2-centroid index `idxG`, a length-1 list
fails the shape check and a length-2 list replaces the centroids. -/
theorem setCentroids_shape_check_witness :
    (IvfFlatIndex.setCentroids idxG [[1]] = .error .assertFail)
    ∧ (IvfFlatIndex.setCentroids idxG [[1], [2]] = .ok ⟨"v", 1, 2, [[1], [2]], [[], []]⟩) :=
  ⟨(setCentroids_shape_check idxG [[1]]).1 (by decide),
   (setCentroids_shape_check idxG [[1], [2]]).2 rfl⟩

end RoxDb
